import Mathlib

/-!
Verification of the RepoChat-AI ingestion-and-retrieval pipeline.

This file gives a shallow embedding, in Lean 4, of the RAG core of the
repository: cosine similarity and the two vector-search paths
(src/src/lib/rag/vector-search.ts and the match_embeddings SQL function of
the schema file), the embedding client (lib/rag/embeddings.ts), the
chunker wrapper and metadata helpers (lib/rag/query.ts), and the ingestion
orchestration (lib/rag/query.ts embedRepository together with the
repositories POST route).  JavaScript numbers are modelled as real numbers,
thrown exceptions as Except String, and external calls (GitHub, the
embedding provider, the database) as explicit inputs or effect traces.
-/

namespace RepoChat

/-! ### Real-vector helpers shared by both similarity paths -/

/-- Dot product of two coordinate lists, as accumulated by the loop of
cosineSimilarity in vector-search.ts (entries beyond the shorter list are
never read because the function first checks the lengths). -/
def dotList : List ℝ → List ℝ → ℝ
  | [], _ => 0
  | _, [] => 0
  | a :: as, b :: bs => a * b + dotList as bs

/-- Sum of squared entries, the magnitude accumulator of cosineSimilarity. -/
def sumSq : List ℝ → ℝ
  | [] => 0
  | a :: as => a * a + sumSq as

/-- Euclidean magnitude: Math.sqrt applied to the squared-sum accumulator. -/
noncomputable def l2mag (v : List ℝ) : ℝ := Real.sqrt (sumSq v)

/-- Translation of cosineSimilarity (vector-search.ts lines 271-294): throws
when the lengths differ, returns 0 when either magnitude is zero, and
otherwise returns dot / (magA * magB). -/
noncomputable def cosineSimilarity (a b : List ℝ) : Except String ℝ :=
  if a.length ≠ b.length then
    .error "Vectors must have the same length"
  else
    let dotProduct := dotList a b
    let magnitudeA := l2mag a
    let magnitudeB := l2mag b
    if magnitudeA = 0 ∨ magnitudeB = 0 then
      .ok 0
    else
      .ok (dotProduct / (magnitudeA * magnitudeB))

lemma dotList_comm (a b : List ℝ) : dotList a b = dotList b a := by
  induction a generalizing b with
  | nil => cases b <;> simp [dotList]
  | cons x xs ih =>
    cases b with
    | nil => simp [dotList]
    | cons y ys => simp [dotList, ih, mul_comm]

lemma sumSq_nonneg (v : List ℝ) : 0 ≤ sumSq v := by
  induction v with
  | nil => simp [sumSq]
  | cons x xs ih => simpa [sumSq] using add_nonneg (mul_self_nonneg x) ih

lemma sumSq_eq_zero_of_all_zero {v : List ℝ} (h : ∀ x ∈ v, x = 0) :
    sumSq v = 0 := by
  induction v with
  | nil => simp [sumSq]
  | cons x xs ih =>
    have hx : x = 0 := h x (by simp)
    have hxs : sumSq xs = 0 := ih (fun y hy => h y (by simp [hy]))
    simp [sumSq, hx, hxs]

lemma dotList_eq_zero_left {a : List ℝ} (b : List ℝ) (h : ∀ x ∈ a, x = 0) :
    dotList a b = 0 := by
  induction a generalizing b with
  | nil => cases b <;> simp [dotList]
  | cons x xs ih =>
    cases b with
    | nil => simp [dotList]
    | cons y ys =>
      have hx : x = 0 := h x (by simp)
      have := ih ys (fun z hz => h z (by simp [hz]))
      simp [dotList, hx, this]

lemma all_zero_of_sumSq_eq_zero {v : List ℝ} (h : sumSq v = 0) :
    ∀ x ∈ v, x = 0 := by
  induction v with
  | nil => simp
  | cons y ys ih =>
    have hsum : y * y + sumSq ys = 0 := by simpa [sumSq] using h
    have hsplit : y * y = 0 ∧ sumSq ys = 0 := by
      constructor <;> nlinarith [sumSq_nonneg ys, mul_self_nonneg y]
    intro x hx
    rcases List.mem_cons.mp hx with rfl | hmem
    · exact mul_self_eq_zero.mp hsplit.1
    · exact ih hsplit.2 x hmem

/-- On equal-length inputs cosineSimilarity never throws and its value is
the plain formula dot / (magA * magB); in the guarded zero-magnitude case
both the code (explicit 0) and the formula (division by zero is 0 in the
real-number model) agree. -/
lemma cosineSimilarity_eq_ok {a b : List ℝ} (h : a.length = b.length) :
    cosineSimilarity a b = .ok (dotList a b / (l2mag a * l2mag b)) := by
  unfold cosineSimilarity
  rw [if_neg (by simp [h])]
  by_cases hz : l2mag a = 0 ∨ l2mag b = 0
  · rw [if_pos hz]
    have hdot : dotList a b = 0 := by
      rcases hz with hz | hz
      · exact dotList_eq_zero_left b
          (all_zero_of_sumSq_eq_zero ((Real.sqrt_eq_zero (sumSq_nonneg a)).mp hz))
      · rw [dotList_comm]
        exact dotList_eq_zero_left a
          (all_zero_of_sumSq_eq_zero ((Real.sqrt_eq_zero (sumSq_nonneg b)).mp hz))
    simp [hdot]
  · rw [if_neg hz]

/-! ### A stable comparator sort, modelling Array.prototype.sort and SQL ORDER BY

Both ranking paths sort by a numeric key: the fallback calls
results.sort with the comparator (a, b) => b.similarity - a.similarity
(a is placed before b exactly when b.similarity < a.similarity), and the SQL
function orders by ascending cosine distance.  Both are modelled with one
insertion sort parameterised by the strict comes-before relation. -/

/-- Stable insertion of x into a sorted list: x goes in front of the first
element that is not strictly before it. -/
def insertSorted (bef : α → α → Prop) [DecidableRel bef] (x : α) :
    List α → List α
  | [] => [x]
  | y :: ys => if bef y x then y :: insertSorted bef x ys else x :: y :: ys

/-- Stable comparator sort by repeated insertion. -/
def sortJS (bef : α → α → Prop) [DecidableRel bef] : List α → List α
  | [] => []
  | x :: xs => insertSorted bef x (sortJS bef xs)

/-- Filtering by a decidable proposition (the WHERE clause of the SQL
function and the threshold test of the fallback loop). -/
def filterP (p : α → Prop) [DecidablePred p] : List α → List α
  | [] => []
  | x :: xs => if p x then x :: filterP p xs else filterP p xs

lemma insertSorted_perm (bef : α → α → Prop) [DecidableRel bef] (x : α)
    (l : List α) : List.Perm (insertSorted bef x l) (x :: l) := by
  induction l with
  | nil => simp [insertSorted]
  | cons y ys ih =>
    by_cases h : bef y x
    · simp only [insertSorted, if_pos h]
      exact (ih.cons y).trans (List.Perm.swap x y ys)
    · simp [insertSorted, if_neg h]

lemma sortJS_perm (bef : α → α → Prop) [DecidableRel bef] (l : List α) :
    List.Perm (sortJS bef l) l := by
  induction l with
  | nil => simp [sortJS]
  | cons x xs ih =>
    exact (insertSorted_perm bef x (sortJS bef xs)).trans (ih.cons x)

lemma insertSorted_pairwise (bef : α → α → Prop) [DecidableRel bef]
    (hA : ∀ a b, bef a b → ¬ bef b a)
    (hNT : ∀ a b c, ¬ bef a b → ¬ bef b c → ¬ bef a c)
    (x : α) {l : List α} (hl : l.Pairwise (fun a b => ¬ bef b a)) :
    (insertSorted bef x l).Pairwise (fun a b => ¬ bef b a) := by
  induction l with
  | nil => simp [insertSorted]
  | cons y ys ih =>
    rcases List.pairwise_cons.mp hl with ⟨hy, hys⟩
    by_cases h : bef y x
    · simp only [insertSorted, if_pos h]
      refine List.pairwise_cons.mpr ⟨?_, ih hys⟩
      intro z hz
      rcases List.mem_cons.mp ((insertSorted_perm bef x ys).mem_iff.mp hz) with
        rfl | hmem
      · exact hA y z h
      · exact hy z hmem
    · simp only [insertSorted, if_neg h]
      refine List.pairwise_cons.mpr ⟨?_, hl⟩
      intro z hz
      rcases List.mem_cons.mp hz with rfl | hmem
      · exact h
      · exact hNT z y x (hy z hmem) h

lemma sortJS_pairwise (bef : α → α → Prop) [DecidableRel bef]
    (hA : ∀ a b, bef a b → ¬ bef b a)
    (hNT : ∀ a b c, ¬ bef a b → ¬ bef b c → ¬ bef a c)
    (l : List α) : (sortJS bef l).Pairwise (fun a b => ¬ bef b a) := by
  induction l with
  | nil => simp [sortJS]
  | cons x xs ih => exact insertSorted_pairwise bef hA hNT x ih

lemma filterP_sublist (p : α → Prop) [DecidablePred p] (l : List α) :
    (filterP p l).Sublist l := by
  induction l with
  | nil => simp [filterP]
  | cons x xs ih =>
    by_cases h : p x
    · simpa [filterP, if_pos h] using ih.cons₂ x
    · simpa [filterP, if_neg h] using ih.cons x

lemma mem_filterP {p : α → Prop} [DecidablePred p] {l : List α} {x : α} :
    x ∈ filterP p l ↔ x ∈ l ∧ p x := by
  induction l with
  | nil => simp [filterP]
  | cons y ys ih =>
    by_cases h : p y
    · simp only [filterP, if_pos h, List.mem_cons, ih]
      constructor
      · rintro (rfl | ⟨hmem, hp⟩)
        · exact ⟨Or.inl rfl, h⟩
        · exact ⟨Or.inr hmem, hp⟩
      · rintro ⟨rfl | hmem, hp⟩
        · exact Or.inl rfl
        · exact Or.inr ⟨hmem, hp⟩
    · simp only [filterP, if_neg h, List.mem_cons, ih]
      constructor
      · rintro ⟨hmem, hp⟩
        exact ⟨Or.inr hmem, hp⟩
      · rintro ⟨rfl | hmem, hp⟩
        · exact absurd hp h
        · exact ⟨hmem, hp⟩

lemma filterP_congr {p q : α → Prop} [DecidablePred p] [DecidablePred q]
    {l : List α} (h : ∀ x ∈ l, p x ↔ q x) : filterP p l = filterP q l := by
  induction l with
  | nil => simp [filterP]
  | cons x xs ih =>
    have hx := h x (by simp)
    have htail := ih (fun y hy => h y (by simp [hy]))
    by_cases hp : p x
    · rw [filterP, filterP, if_pos hp, if_pos (hx.mp hp), htail]
    · rw [filterP, filterP, if_neg hp, if_neg (fun hq => hp (hx.mpr hq)), htail]

/-! ### Data model of the embeddings table and of search results -/

/-- A stored row of the embeddings table, with the columns used by the two
search paths (id, repository_id, text, chunk_index, embedding). -/
structure EmbeddingRow where
  id : String
  repository_id : String
  text : String
  chunk_index : ℕ
  embedding : List ℝ

/-- The SimilarChunk record of vector-search.ts. -/
structure SimilarChunk where
  chunk_text : String
  similarity : ℝ
  file_path : Option String
  chunk_index : ℕ
  metadata : Option String

/-- A row of the table returned by the match_embeddings SQL function
(id, repository_id, text, chunk_index, similarity). -/
structure MatchRow where
  id : String
  repository_id : String
  text : String
  chunk_index : ℕ
  similarity : ℝ

/-- JavaScript x || d on numbers: x when truthy (nonzero), d otherwise. -/
noncomputable def jsOr (x d : ℝ) : ℝ := if x = 0 then d else x

/-- JavaScript x || d on a nonnegative integer field. -/
def jsOrNat (x d : ℕ) : ℕ := if x = 0 then d else x

lemma jsOr_zero (x : ℝ) : jsOr x 0 = x := by
  unfold jsOr; by_cases h : x = 0 <;> simp [h]

lemma jsOrNat_zero (x : ℕ) : jsOrNat x 0 = x := by
  unfold jsOrNat; by_cases h : x = 0 <;> simp [h]

/-- The pgvector cosine-distance operator: 1 - dot(a, b) / (|a| * |b|). -/
noncomputable def cosDistance (a b : List ℝ) : ℝ :=
  1 - dotList a b / (l2mag a * l2mag b)

/-- Translation of the match_embeddings SQL function (schema file lines
260-289): keep the repository's rows whose similarity 1 - (embedding <=>
query) is strictly above the threshold, order by ascending cosine
distance, limit to match_count, and return each row with its similarity. -/
noncomputable def match_embeddings (rows : List EmbeddingRow)
    (query_embedding : List ℝ) (match_repository_id : String)
    (match_threshold : ℝ) (match_count : ℕ) : List MatchRow :=
  let kept := filterP (fun e => e.repository_id = match_repository_id ∧
    1 - cosDistance e.embedding query_embedding > match_threshold) rows
  let ordered := sortJS (fun e1 e2 =>
    cosDistance e1.embedding query_embedding <
      cosDistance e2.embedding query_embedding) kept
  (ordered.take match_count).map (fun e =>
    ⟨e.id, e.repository_id, e.text, e.chunk_index,
      1 - cosDistance e.embedding query_embedding⟩)

/-- The transform applied to server rows in searchSimilarChunks (lines
189-195): item.text || item.chunk_text is item.text (the function returns a
text column), similarity and chunk_index go through || 0, and file_path and
metadata, absent from the returned table, become null. -/
noncomputable def mapServerResults (data : List MatchRow) : List SimilarChunk :=
  data.map (fun item =>
    ⟨item.text, jsOr item.similarity 0, none, jsOrNat item.chunk_index 0, none⟩)

/-- The accumulation loop of searchSimilarChunksFallback (lines 237-254):
for each fetched row compute cosineSimilarity of the query against the row
embedding (propagating its exception), and keep the rows whose similarity
reaches the threshold, in fetch order. -/
noncomputable def fallbackLoop (queryEmbedding : List ℝ) (threshold : ℝ) :
    List EmbeddingRow → Except String (List SimilarChunk)
  | [] => .ok []
  | item :: rest =>
    match cosineSimilarity queryEmbedding item.embedding with
    | .error e => .error e
    | .ok similarity =>
      match fallbackLoop queryEmbedding threshold rest with
      | .error e => .error e
      | .ok tail =>
        if similarity ≥ threshold then
          .ok (⟨item.text, similarity, none, jsOrNat item.chunk_index 0, none⟩ :: tail)
        else
          .ok tail

/-- Translation of searchSimilarChunksFallback (lines 212-263): fetch at
most limit * 2 of the repository's rows in storage order, compute cosine
similarity for each, keep those at or above the threshold, sort by
descending similarity and return the first limit results. -/
noncomputable def searchSimilarChunksFallback (rows : List EmbeddingRow)
    (repoId : String) (queryEmbedding : List ℝ) (limit : ℕ) (threshold : ℝ) :
    Except String (List SimilarChunk) :=
  let data := (filterP (fun e => e.repository_id = repoId) rows).take (limit * 2)
  (fallbackLoop queryEmbedding threshold data).map (fun results =>
    (sortJS (fun a b => b.similarity < a.similarity) results).take limit)

/-- Store queries a search can issue: the match_embeddings RPC and the
fallback's direct select on the embeddings table. -/
inductive StoreQuery where
  | rpcMatchEmbeddings
  | selectEmbeddings
deriving DecidableEq

/-- The vector store as seen by searchSimilarChunks: whether the server-side
match_embeddings function exists, and the stored rows. -/
structure VectorStore where
  rpcAvailable : Bool
  rows : List EmbeddingRow

/-- The dimension-validation error message of searchSimilarChunks. -/
def dimensionError (n : ℕ) : String :=
  "Query embedding has dimension " ++ toString n ++ ", expected 384"

/-- Translation of searchSimilarChunks (lines 145-200), with an explicit
trace of the queries issued to the store: validate the query dimension
before any query, then use the match_embeddings RPC, falling back to the
direct-select path when the RPC is unavailable. -/
noncomputable def searchSimilarChunks (store : VectorStore) (repoId : String)
    (queryEmbedding : List ℝ) (limit : ℕ) (threshold : ℝ) :
    Except String (List SimilarChunk) × List StoreQuery :=
  if queryEmbedding.length ≠ 384 then
    (.error (dimensionError queryEmbedding.length), [])
  else if store.rpcAvailable then
    (.ok (mapServerResults
        (match_embeddings store.rows queryEmbedding repoId threshold limit)),
      [.rpcMatchEmbeddings])
  else
    (searchSimilarChunksFallback store.rows repoId queryEmbedding limit threshold,
      [.rpcMatchEmbeddings, .selectEmbeddings])

/-! ### Characterisations of the two ranking paths -/

/-- The similarity value the fallback computes for a stored row: cosine of
the query against the row embedding. -/
noncomputable def simVal (q : List ℝ) (r : EmbeddingRow) : ℝ :=
  dotList q r.embedding / (l2mag q * l2mag r.embedding)

/-- The SimilarChunk the fallback builds for a kept row. -/
noncomputable def chunkOfRow (q : List ℝ) (r : EmbeddingRow) : SimilarChunk :=
  ⟨r.text, simVal q r, none, jsOrNat r.chunk_index 0, none⟩

lemma one_sub_cosDistance (e q : List ℝ) :
    1 - cosDistance e q = dotList q e / (l2mag q * l2mag e) := by
  unfold cosDistance
  rw [dotList_comm, mul_comm]
  ring

lemma fallbackLoop_ok_of_lengths {q : List ℝ} {t : ℝ} {data : List EmbeddingRow}
    (h : ∀ r ∈ data, r.embedding.length = q.length) :
    fallbackLoop q t data =
      .ok ((filterP (fun r => simVal q r ≥ t) data).map (chunkOfRow q)) := by
  induction data with
  | nil => rfl
  | cons item rest ih =>
    have hlen : q.length = item.embedding.length := (h item (by simp)).symm
    have hcs : cosineSimilarity q item.embedding = .ok (simVal q item) :=
      cosineSimilarity_eq_ok hlen
    have htail := ih (fun r hr => h r (by simp [hr]))
    rw [fallbackLoop, hcs, htail]
    by_cases hth : simVal q item ≥ t
    · simp only [filterP]
      simp [hth, chunkOfRow]
    · simp only [filterP]
      simp [hth]

lemma fallbackLoop_ok_mem {q : List ℝ} {t : ℝ} {data : List EmbeddingRow}
    {res : List SimilarChunk} (h : fallbackLoop q t data = .ok res) :
    ∀ c ∈ res, t ≤ c.similarity := by
  induction data generalizing res with
  | nil =>
    simp only [fallbackLoop] at h
    cases h
    simp
  | cons item rest ih =>
    rw [fallbackLoop] at h
    cases hcs : cosineSimilarity q item.embedding with
    | error e => simp only [hcs] at h; exact Except.noConfusion h
    | ok s =>
      simp only [hcs] at h
      cases htail : fallbackLoop q t rest with
      | error e => simp only [htail] at h; exact Except.noConfusion h
      | ok tail =>
        simp only [htail] at h
        by_cases hth : s ≥ t
        · rw [if_pos hth] at h
          cases h
          intro c hc
          rcases List.mem_cons.mp hc with rfl | hmem
          · exact hth
          · exact ih htail c hmem
        · rw [if_neg hth] at h
          cases h
          exact ih htail

lemma befChunk_asymm :
    ∀ a b : SimilarChunk, b.similarity < a.similarity →
      ¬ a.similarity < b.similarity :=
  fun _ _ h => not_lt.mpr (le_of_lt h)

lemma befChunk_negTrans :
    ∀ a b c : SimilarChunk, ¬ b.similarity < a.similarity →
      ¬ c.similarity < b.similarity → ¬ c.similarity < a.similarity :=
  fun _ _ _ hab hbc => not_lt.mpr (le_trans (not_lt.mp hab) (not_lt.mp hbc))

/-- A fallback success result is sorted by non-increasing similarity. -/
lemma fallback_result_sorted (results : List SimilarChunk) (k : ℕ) :
    ((sortJS (fun a b => b.similarity < a.similarity) results).take k).Pairwise
      (fun a b => b.similarity ≤ a.similarity) := by
  have hpw := sortJS_pairwise (fun a b : SimilarChunk =>
    b.similarity < a.similarity) befChunk_asymm befChunk_negTrans results
  have htake := hpw.sublist (List.take_sublist k _)
  exact htake.imp (fun h => not_lt.mp h)

lemma befRow_asymm (q : List ℝ) : ∀ a b : EmbeddingRow,
    cosDistance a.embedding q < cosDistance b.embedding q →
    ¬ cosDistance b.embedding q < cosDistance a.embedding q :=
  fun _ _ h => not_lt.mpr h.le

lemma befRow_negTrans (q : List ℝ) : ∀ a b c : EmbeddingRow,
    ¬ cosDistance a.embedding q < cosDistance b.embedding q →
    ¬ cosDistance b.embedding q < cosDistance c.embedding q →
    ¬ cosDistance a.embedding q < cosDistance c.embedding q :=
  fun _ _ _ hab hbc => not_lt.mpr (le_trans (not_lt.mp hbc) (not_lt.mp hab))

lemma filterP_and (P Q : α → Prop) [DecidablePred P] [DecidablePred Q]
    (l : List α) :
    filterP (fun x => P x ∧ Q x) l = filterP Q (filterP P l) := by
  induction l with
  | nil => rfl
  | cons x xs ih =>
    by_cases hP : P x
    · by_cases hQ : Q x
      · rw [filterP, if_pos ⟨hP, hQ⟩, filterP, if_pos hP, filterP, if_pos hQ, ih]
      · rw [filterP, if_neg (fun h => hQ h.2), filterP, if_pos hP, filterP,
          if_neg hQ, ih]
    · rw [filterP, if_neg (fun h => hP h.1), filterP, if_neg hP, ih]

lemma pairwise_desc_strict {l : List SimilarChunk}
    (h1 : l.Pairwise (fun a b => b.similarity ≤ a.similarity))
    (h2 : l.Pairwise (fun a b => a.similarity ≠ b.similarity)) :
    l.Pairwise (fun a b => b.similarity < a.similarity) :=
  (h1.and h2).imp (fun h => lt_of_le_of_ne h.1 (fun heq => h.2 heq.symm))

lemma simVal_eq (q : List ℝ) (r : EmbeddingRow) :
    simVal q r = 1 - cosDistance r.embedding q :=
  (one_sub_cosDistance r.embedding q).symm

/-! ### The embeddings module (lib/rag/embeddings.ts)

The Hugging Face provider is modelled as an optional API token (getEmbeddings
throws when none can be resolved) and a raw response function giving the
vectors the provider would return for a batch of texts.  The operations are
paired with an explicit trace of the provider interactions so that the
no-call guarantees are statable. -/

/-- The external embedding provider as seen by embeddings.ts. -/
structure Provider where
  token : Option String
  embed : List String → List (List ℝ)

/-- Provider interactions embedDocuments can perform: constructing the
HuggingFaceInferenceEmbeddings client (throws on a missing token) and the
embedDocuments call itself. -/
inductive ProviderEffect where
  | constructClient
  | callEmbedDocuments
deriving DecidableEq

/-- The missing-token error thrown by getEmbeddings. -/
def hfTokenError : String :=
  "HF_TOKEN environment variable is required for embeddings"

/-- The per-document dimension-mismatch message of embedDocuments. -/
def dimensionMismatchMsg (i n : ℕ) : String :=
  "Expected embedding dimension 384 for document " ++ toString i ++
    ", got " ++ toString n

/-- The catch-wrapper message of embedDocuments. -/
def wrapDocumentsError (msg : String) : String :=
  "Failed to generate document embeddings: " ++ msg

/-- The validation loop of embedDocuments (embeddings.ts lines 277-283):
walk every returned vector and throw at the first whose length is not 384. -/
def validateDimensions : List (List ℝ) → ℕ → Except String Unit
  | [], _ => .ok ()
  | v :: vs, i =>
    if v.length ≠ 384 then .error (dimensionMismatchMsg i v.length)
    else validateDimensions vs (i + 1)

/-- Translation of embedDocuments (embeddings.ts lines 264-290) with its
provider-interaction trace: an empty batch returns [] before the client is
even constructed; otherwise the client is built (throwing when no token is
available), the provider is called once, and every returned vector is
dimension-checked; thrown errors are wrapped by the catch block. -/
def embedDocuments (p : Provider) (texts : List String) :
    Except String (List (List ℝ)) × List ProviderEffect :=
  if texts.length = 0 then (.ok [], [])
  else
    match p.token with
    | none => (.error (wrapDocumentsError hfTokenError), [.constructClient])
    | some _ =>
      let vectors := p.embed texts
      match validateDimensions vectors 0 with
      | .error msg =>
        (.error (wrapDocumentsError msg), [.constructClient, .callEmbedDocuments])
      | .ok _ => (.ok vectors, [.constructClient, .callEmbedDocuments])

/-! ### Language extraction (lib/rag/query.ts extractLanguages) -/

/-- A file fetched from GitHub: its path and text content. -/
structure GitHubFile where
  path : String
  content : String

/-- JavaScript String.prototype.split on a single separator character:
always at least one piece, empty pieces preserved. -/
def splitOnChar (c : Char) : List Char → List (List Char)
  | [] => [[]]
  | x :: xs =>
    let rest := splitOnChar c xs
    if x = c then [] :: rest
    else
      match rest with
      | [] => [[x]]
      | r :: rs => (x :: r) :: rs

/-- The extension of a path as extractLanguages computes it:
path.split with a dot, then pop (the last piece), then toLowerCase; a
missing or empty extension is skipped by the truthiness test. -/
def extOf (path : String) : Option (List Char) :=
  match (splitOnChar (Char.ofNat 46) path.toList).getLast? with
  | none => none
  | some e =>
    let ext := e.map Char.toLower
    if ext = [] then none else some ext

/-- The extension set of extractLanguages: a JavaScript Set is modelled as
an insertion-ordered duplicate-free list. -/
def collectExtensions (files : List GitHubFile) : List (List Char) :=
  files.foldl (fun exts f =>
    match extOf f.path with
    | none => exts
    | some ext => if ext ∈ exts then exts else exts ++ [ext]) []

/-- The langMap object literal of extractLanguages as an association list. -/
def langPairs : List (List Char × String) :=
  [("ts".toList, "TypeScript"), ("tsx".toList, "TypeScript"),
   ("js".toList, "JavaScript"), ("jsx".toList, "JavaScript"),
   ("py".toList, "Python"), ("java".toList, "Java"),
   ("go".toList, "Go"), ("rs".toList, "Rust"),
   ("cpp".toList, "C++"), ("c".toList, "C")]

/-- Property lookup in the langMap object. -/
def langMap (ext : List Char) : Option String :=
  (langPairs.find? (fun p => p.1 == ext)).map (fun p => p.2)

/-- Translation of extractLanguages (query.ts lines 313-337): collect the
deduplicated extension set, map each extension through langMap and keep the
defined results (the Boolean filter). -/
def extractLanguages (files : List GitHubFile) : List String :=
  (collectExtensions files).filterMap langMap

lemma collectExtensions_step_nodup (acc : List (List Char)) (f : GitHubFile)
    (h : acc.Nodup) :
    (match extOf f.path with
      | none => acc
      | some ext => if ext ∈ acc then acc else acc ++ [ext]).Nodup := by
  cases hext : extOf f.path with
  | none => exact h
  | some ext =>
    by_cases hmem : ext ∈ acc
    · simpa [hmem] using h
    · simp only [if_neg hmem]
      rw [List.nodup_append]
      refine ⟨h, List.nodup_singleton ext, ?_⟩
      intro a ha hone
      rw [List.mem_singleton] at hone
      subst hone
      exact hmem ha

lemma collectExtensions_nodup (files : List GitHubFile) :
    (collectExtensions files).Nodup := by
  suffices hgen : ∀ acc : List (List Char), acc.Nodup →
      (files.foldl (fun exts f =>
        match extOf f.path with
        | none => exts
        | some ext => if ext ∈ exts then exts else exts ++ [ext]) acc).Nodup by
    exact hgen [] List.nodup_nil
  induction files with
  | nil => intro acc h; exact h
  | cons f fs ih =>
    intro acc h
    exact ih _ (collectExtensions_step_nodup acc f h)

lemma langPairs_collisions : ∀ p1 ∈ langPairs, ∀ p2 ∈ langPairs,
    p1.2 = p2.2 → p1.1 = p2.1 ∨
      (p1.1 = "ts".toList ∧ p2.1 = "tsx".toList) ∨
      (p1.1 = "tsx".toList ∧ p2.1 = "ts".toList) ∨
      (p1.1 = "js".toList ∧ p2.1 = "jsx".toList) ∨
      (p1.1 = "jsx".toList ∧ p2.1 = "js".toList) := by decide

lemma nodup_filterMap_of_inj_on {α β : Type} {l : List α} {f : α → Option β}
    (hl : l.Nodup)
    (hinj : ∀ a ∈ l, ∀ b ∈ l, ∀ c, f a = some c → f b = some c → a = b) :
    (l.filterMap f).Nodup := by
  induction l with
  | nil => simp
  | cons x xs ih =>
    rcases List.pairwise_cons.mp hl with ⟨hx, hxs⟩
    cases hfx : f x with
    | none =>
      rw [List.filterMap_cons_none hfx]
      exact ih hxs (fun a ha b hb c hfa hfb =>
        hinj a (by simp [ha]) b (by simp [hb]) c hfa hfb)
    | some c =>
      rw [List.filterMap_cons_some hfx]
      refine List.pairwise_cons.mpr ⟨?_, ih hxs (fun a ha b hb d hfa hfb =>
        hinj a (by simp [ha]) b (by simp [hb]) d hfa hfb)⟩
      intro d hd hdc
      obtain ⟨b, hb, hfb⟩ := List.mem_filterMap.mp hd
      have hxb : x = b := hinj x (by simp) b (by simp [hb]) d (hdc ▸ hfx) hfb
      subst hxb
      exact (hx x hb) rfl

lemma langMap_eq_some {ext : List Char} {n : String}
    (h : langMap ext = some n) :
    ∃ p ∈ langPairs, p.1 = ext ∧ p.2 = n := by
  unfold langMap at h
  cases hfind : langPairs.find? (fun p => p.1 == ext) with
  | none => rw [hfind] at h; exact absurd h (by simp)
  | some p =>
    rw [hfind] at h
    refine ⟨p, List.mem_of_find?_eq_some hfind, ?_, ?_⟩
    · have := List.find?_some hfind
      exact eq_of_beq (by simpa using this)
    · simpa using h

lemma validateDimensions_ok_iff (vs : List (List ℝ)) (i : ℕ) :
    validateDimensions vs i = .ok () ↔ ∀ v ∈ vs, v.length = 384 := by
  induction vs generalizing i with
  | nil => simp [validateDimensions]
  | cons v vs ih =>
    by_cases h : v.length ≠ 384
    · rw [validateDimensions, if_pos h]
      simp only [List.mem_cons]
      constructor
      · intro hcontra
        exact absurd hcontra (by simp)
      · intro hall
        exact absurd (hall v (Or.inl rfl)) h
    · rw [validateDimensions, if_neg h]
      rw [not_not] at h
      simp only [List.mem_cons, ih]
      constructor
      · rintro hall x (rfl | hmem)
        · exact h
        · exact hall x hmem
      · intro hall x hmem
        exact hall x (Or.inr hmem)

/-! ### The chunker (lib/rag/query.ts chunkWithMetadata)

The RecursiveCharacterTextSplitter that chunkWithMetadata delegates to is
the external langchain library, not code of this repository, so the split
itself is modelled from the spec; the header prefixing around it is
translated from chunkWithMetadata. -/

/-- The CHUNK_SIZE constant of query.ts. -/
def CHUNK_SIZE : ℕ := 2000

/-- The CHUNK_OVERLAP constant of query.ts. -/
def CHUNK_OVERLAP : ℕ := 400

/-- Modelled from the spec: the RecursiveCharacterTextSplitter used by
chunkWithMetadata lives in the external langchain package and is missing
from the repository, so split follows the contract of spec section 4.1:
split(text, maxSize, overlap) yields an ordered sequence of substrings,
each at most maxSize characters, consecutive substrings overlapping by
overlap characters, and empty input yields an empty sequence.  The spec's
preference for paragraph or sentence boundaries only moves cut points and
is not modelled; the window advances by maxSize - overlap characters.  The
degenerate parameter case overlap at or above maxSize returns the whole
text as one chunk. -/
def split (maxSize overlap : ℕ) (t : List Char) : List (List Char) :=
  if t.isEmpty then []
  else if t.length ≤ maxSize ∨ maxSize ≤ overlap then [t]
  else t.take maxSize :: split maxSize overlap (t.drop (maxSize - overlap))
termination_by t.length
decreasing_by
  simp only [List.length_drop]
  omega

/-- Concatenation of chunk tails, each with its leading overlap removed. -/
def dropOverlapConcat (overlap : ℕ) : List (List Char) → List Char
  | [] => []
  | c :: cs => c.drop overlap ++ dropOverlapConcat overlap cs

/-- Reassembly of a chunk sequence: the first chunk whole, every later
chunk without its leading overlap characters. -/
def joinChunks (overlap : ℕ) : List (List Char) → List Char
  | [] => []
  | c :: cs => c ++ dropOverlapConcat overlap cs

/-- A chunk with its file metadata, as accumulated by embedRepository. -/
structure ChunkMeta where
  text : List Char
  filePath : String
  fileType : String
  importance : ℕ

/-- The one-line file-identification header chunkWithMetadata prepends. -/
def chunkHeader (filePath : String) : List Char :=
  ("File: " ++ filePath ++ "\n\n").toList

/-- Translation of chunkWithMetadata (query.ts lines 388-414): split the
content with chunk size 2000 and overlap 400, then wrap each piece with the
File header and the file metadata. -/
def chunkWithMetadata (content : List Char) (filePath : String)
    (fileType : String) (importance : ℕ) : List ChunkMeta :=
  (split CHUNK_SIZE CHUNK_OVERLAP content).map (fun doc =>
    ⟨chunkHeader filePath ++ doc, filePath, fileType, importance⟩)

lemma split_length_le (maxSize overlap : ℕ) (h : overlap < maxSize) :
    ∀ (t : List Char), ∀ c ∈ split maxSize overlap t, c.length ≤ maxSize := by
  intro t
  induction t using split.induct maxSize overlap with
  | case1 t ht => rw [split, if_pos ht]; simp
  | case2 t ht h2 =>
    rw [split, if_neg ht, if_pos h2]
    intro c hc
    rw [List.mem_singleton] at hc
    subst hc
    rcases h2 with h2 | h2
    · exact h2
    · omega
  | case3 t ht h2 ih =>
    rw [split, if_neg ht, if_neg h2]
    intro c hc
    rcases List.mem_cons.mp hc with rfl | hmem
    · simp [List.length_take]
    · exact ih c hmem

lemma split_head (maxSize overlap : ℕ) (h : overlap < maxSize) (s : List Char)
    (hs : ¬ s.isEmpty = true) :
    (split maxSize overlap s).head? = some (s.take maxSize) := by
  rw [split, if_neg hs]
  by_cases h2 : s.length ≤ maxSize ∨ maxSize ≤ overlap
  · rw [if_pos h2]
    rcases h2 with h2 | h2
    · simp [List.take_of_length_le h2]
    · exact absurd h2 (by omega)
  · rw [if_neg h2]
    simp

lemma split_chain (maxSize overlap : ℕ) (h : overlap < maxSize) :
    ∀ t : List Char, (split maxSize overlap t).Chain'
      (fun c1 c2 => c1.drop (c1.length - overlap) = c2.take overlap) := by
  intro t
  induction t using split.induct maxSize overlap with
  | case1 t ht => rw [split, if_pos ht]; simp
  | case2 t ht h2 => rw [split, if_neg ht, if_pos h2]; simp
  | case3 t ht h2 ih =>
    rw [split, if_neg ht, if_neg h2]
    push_neg at h2
    obtain ⟨hlen, hov⟩ := h2
    refine List.chain'_cons'.mpr ⟨?_, ih⟩
    intro y hy
    have hd : ¬ (t.drop (maxSize - overlap)).isEmpty = true := by
      rw [List.isEmpty_iff, List.drop_eq_nil_iff]
      omega
    rw [split_head maxSize overlap h _ hd] at hy
    rw [Option.mem_some_iff] at hy
    subst hy
    have hta : (t.take maxSize).length = maxSize :=
      List.length_take_of_le (le_of_lt hlen)
    rw [hta, List.drop_take maxSize (maxSize - overlap) t, List.take_take]
    have hsub : maxSize - (maxSize - overlap) = overlap := by omega
    have hmin : min overlap maxSize = overlap := min_eq_left (le_of_lt h)
    rw [hsub, hmin]

lemma dropOverlapConcat_split (maxSize overlap : ℕ) (h : overlap < maxSize) :
    ∀ s : List Char,
      dropOverlapConcat overlap (split maxSize overlap s) = s.drop overlap := by
  intro s
  induction s using split.induct maxSize overlap with
  | case1 s hs =>
    have hnil : s = [] := List.isEmpty_iff.mp hs
    subst hnil
    rw [split]
    simp [dropOverlapConcat]
  | case2 s hs h2 =>
    rw [split, if_neg hs, if_pos h2]
    simp [dropOverlapConcat]
  | case3 s hs h2 ih =>
    rw [split, if_neg hs, if_neg h2]
    push_neg at h2
    obtain ⟨hlen, hov⟩ := h2
    rw [dropOverlapConcat, ih]
    rw [List.drop_take maxSize overlap s, List.drop_drop]
    have h1 : maxSize - overlap + overlap = maxSize := by omega
    rw [h1]
    have h2 : s.drop maxSize = (s.drop overlap).drop (maxSize - overlap) := by
      rw [List.drop_drop]
      congr 1
      omega
    rw [h2, List.take_append_drop]

lemma joinChunks_split (maxSize overlap : ℕ) (h : overlap < maxSize)
    (t : List Char) : joinChunks overlap (split maxSize overlap t) = t := by
  rw [split]
  by_cases h1 : t.isEmpty = true
  · rw [if_pos h1]
    have hnil : t = [] := List.isEmpty_iff.mp h1
    subst hnil
    rfl
  · rw [if_neg h1]
    by_cases h2 : t.length ≤ maxSize ∨ maxSize ≤ overlap
    · rw [if_pos h2]
      simp [joinChunks, dropOverlapConcat]
    · rw [if_neg h2]
      push_neg at h2
      rw [joinChunks, dropOverlapConcat_split maxSize overlap h]
      rw [List.drop_drop]
      have h3 : maxSize - overlap + overlap = maxSize := by omega
      rw [h3, List.take_append_drop]

/-! ### Ingestion orchestration (lib/rag/query.ts embedRepository and the
repositories POST route of app/api/repositories) -/

/-- Leading-run match of a needle against a hay list. -/
def leadMatch : List Char → List Char → Bool
  | [], _ => true
  | _ :: _, [] => false
  | n :: ns, h :: hs => n = h && leadMatch ns hs

/-- Substring search on character lists. -/
def hasSub (needle : List Char) : List Char → Bool
  | [] => leadMatch needle []
  | h :: hs => leadMatch needle (h :: hs) || hasSub needle hs

/-- JavaScript String.prototype.includes. -/
def strIncludes (hay needle : String) : Bool := hasSub needle.toList hay.toList

/-- JavaScript String.prototype.endsWith. -/
def strEndsWith (hay suffixStr : String) : Bool :=
  leadMatch suffixStr.toList.reverse hay.toList.reverse

/-- Translation of calculateImportance (query.ts lines 362-371). -/
def calculateImportance (filePath : String) : ℕ :=
  if strIncludes filePath "README" then 10
  else if strEndsWith filePath ".md" then 8
  else if strIncludes filePath "package.json" then 9
  else if strIncludes filePath "config" then 7
  else if strIncludes filePath "/api/" then 8
  else if strIncludes filePath "/src/" then 6
  else if strIncludes filePath "test" then 3
  else 5

/-- Translation of detectFileType (query.ts lines 376-383). -/
def detectFileType (filePath : String) : String :=
  if strEndsWith filePath ".md" then "documentation"
  else if strEndsWith filePath ".json" || strEndsWith filePath ".yaml" then
    "config"
  else if strIncludes filePath "/api/" then "api"
  else if strIncludes filePath "/components/" then "component"
  else if strIncludes filePath "/lib/" then "library"
  else "code"

/-- Translation of detectFramework (query.ts lines 342-357). -/
def detectFramework (files : List GitHubFile) : Option String :=
  let paths := files.map (fun f => f.path)
  if paths.any (fun p => strIncludes p "package.json") then
    if paths.any (fun p => strIncludes p "next.config") then some "Next.js"
    else if paths.any (fun p => strIncludes p "vite.config") then some "Vite"
    else some "Node.js"
  else if paths.any (fun p => strIncludes p "requirements.txt") then
    some "Python"
  else if paths.any (fun p => strIncludes p "pom.xml") then some "Maven/Java"
  else if paths.any (fun p => strIncludes p "Cargo.toml") then some "Rust"
  else if paths.any (fun p => strIncludes p "go.mod") then some "Go"
  else none

/-- The repository content fetched from GitHub: optional README plus the
capped file list. -/
structure RepoContent where
  readme : Option String
  files : List GitHubFile

/-- Repository-level metadata derived during ingestion.  The textual
file-tree rendering of buildFileTree is a presentation-only string no claim
depends on and is not modelled. -/
structure RepositoryMetadata where
  readme : Option String
  languages : List String
  framework : Option String
  totalFiles : ℕ

/-- Derivation of the metadata record built in embedRepository lines 87-93. -/
def deriveMetadata (content : RepoContent) : RepositoryMetadata :=
  { readme := content.readme
    languages := extractLanguages content.files
    framework := detectFramework content.files
    totalFiles := content.files.length }

/-- The chunk accumulation of embedRepository lines 98-127: README chunks
first at importance 10, then every fetched file chunked with its derived
file type and importance. -/
def buildChunks (content : RepoContent) : List ChunkMeta :=
  (match content.readme with
   | some readme => chunkWithMetadata readme.toList "README.md" "documentation" 10
   | none => []) ++
  (content.files.map (fun f =>
    chunkWithMetadata f.content.toList f.path (detectFileType f.path)
      (calculateImportance f.path))).flatten

/-- The pipeline steps named by the failure-policy claim. -/
inductive PipelineStep where
  | fetch
  | metadata
  | chunking
  | embedding
  | storing
deriving DecidableEq

/-- All five steps, in execution order. -/
def allSteps : List PipelineStep :=
  [.fetch, .metadata, .chunking, .embedding, .storing]

/-- The external collaborators of one ingestion run: the GitHub fetch
outcome, the embedding provider, and the outcomes of the two database
writes of the storing step (deleteRepositoryEmbeddings and
storeEmbeddingsWithMetadata).  storeRepositoryMetadata catches and logs
its own database error instead of throwing, so it has no failure outcome
here. -/
structure PipelineEnv where
  fetchRepo : Except String RepoContent
  provider : Provider
  deleteOld : Except String Unit
  storeNew : Except String Unit

/-- Translation of embedRepository (query.ts lines 68-172) paired with the
trace of executed steps: fetch, then metadata derivation and chunking
(pure), then embedding, then the store writes; the first thrown error stops
the run, is reported by the rethrowing catch block, and the remaining steps
never execute. -/
def embedRepository (env : PipelineEnv) :
    Except String Unit × List PipelineStep :=
  match env.fetchRepo with
  | .error e => (.error e, [.fetch])
  | .ok content =>
    let _metadata := deriveMetadata content
    let chunks := buildChunks content
    match (embedDocuments env.provider (chunks.map (fun c => String.mk c.text))).1 with
    | .error e => (.error e, [.fetch, .metadata, .chunking, .embedding])
    | .ok _vectors =>
      match env.deleteOld with
      | .error e => (.error e, allSteps)
      | .ok _ =>
        match env.storeNew with
        | .error e => (.error e, allSteps)
        | .ok _ => (.ok (), allSteps)

/-- Repository status values. -/
inductive RepoStatus where
  | processing
  | ready
  | error (msg : String)
deriving DecidableEq

/-- The status written by the POST route of app/api/repositories (lines
86-107): the then-branch marks the repository ready, the catch-branch marks
it error with the thrown message. -/
def repositoryStatusAfter (env : PipelineEnv) : RepoStatus :=
  match (embedRepository env).1 with
  | .ok _ => .ready
  | .error e => .error e

end RepoChat

/-- C10: the similarity search rejects any query vector whose length is not
384 with the dimension error before issuing any query against the store,
and every search that does reach the store (a nonempty query trace) used a
query vector of length exactly 384. -/
theorem C10_searchSimilarChunks_validates_dimension
    (store : RepoChat.VectorStore) (repoId : String) (q : List ℝ)
    (k : ℕ) (t : ℝ) :
    (q.length ≠ 384 →
      RepoChat.searchSimilarChunks store repoId q k t =
        (.error (RepoChat.dimensionError q.length), [])) ∧
    ((RepoChat.searchSimilarChunks store repoId q k t).2 ≠ [] →
      q.length = 384) := by
  constructor
  · intro h
    unfold RepoChat.searchSimilarChunks
    rw [if_pos h]
  · intro htrace
    by_contra hne
    apply htrace
    show (RepoChat.searchSimilarChunks store repoId q k t).2 = []
    unfold RepoChat.searchSimilarChunks
    rw [if_pos hne]

/-- Witness for C10 at the empty query vector (length 0) against a store
with the RPC available. -/
theorem C10_searchSimilarChunks_validates_dimension_witness :
    RepoChat.searchSimilarChunks ⟨true, []⟩ "repo" ([] : List ℝ) 3 0 =
      (.error (RepoChat.dimensionError 0), []) :=
  (C10_searchSimilarChunks_validates_dimension ⟨true, []⟩ "repo" [] 3 0).1
    (by decide)

/-- C4: on both ranking paths the similarity search returns at most k
results, every returned result has similarity at least the threshold, and
the results are sorted in non-increasing order of similarity.  The first
conjunct covers the server-side match_embeddings rows as transformed by
searchSimilarChunks; the second covers any successful run of the
client-side fallback. -/
theorem C4_search_contract (rows : List RepoChat.EmbeddingRow)
    (repoId : String) (q : List ℝ) (k : ℕ) (t : ℝ) :
    ((RepoChat.mapServerResults
        (RepoChat.match_embeddings rows q repoId t k)).length ≤ k ∧
      (∀ c ∈ RepoChat.mapServerResults
        (RepoChat.match_embeddings rows q repoId t k), t ≤ c.similarity) ∧
      (RepoChat.mapServerResults
        (RepoChat.match_embeddings rows q repoId t k)).Pairwise
          (fun a b => b.similarity ≤ a.similarity)) ∧
    (∀ out, RepoChat.searchSimilarChunksFallback rows repoId q k t = .ok out →
      out.length ≤ k ∧ (∀ c ∈ out, t ≤ c.similarity) ∧
        out.Pairwise (fun a b => b.similarity ≤ a.similarity)) := by
  have hA : ∀ a b : RepoChat.EmbeddingRow,
      RepoChat.cosDistance a.embedding q < RepoChat.cosDistance b.embedding q →
      ¬ RepoChat.cosDistance b.embedding q < RepoChat.cosDistance a.embedding q :=
    fun _ _ h => not_lt.mpr (le_of_lt h)
  have hNT : ∀ a b c : RepoChat.EmbeddingRow,
      ¬ RepoChat.cosDistance a.embedding q < RepoChat.cosDistance b.embedding q →
      ¬ RepoChat.cosDistance b.embedding q < RepoChat.cosDistance c.embedding q →
      ¬ RepoChat.cosDistance a.embedding q < RepoChat.cosDistance c.embedding q :=
    fun _ _ _ hab hbc => not_lt.mpr (le_trans (not_lt.mp hbc) (not_lt.mp hab))
  constructor
  · refine ⟨?_, ?_, ?_⟩
    · simp only [RepoChat.mapServerResults, RepoChat.match_embeddings,
        List.length_map, List.length_take]
      exact min_le_left _ _
    · intro c hc
      simp only [RepoChat.mapServerResults, RepoChat.match_embeddings,
        List.mem_map] at hc
      obtain ⟨m, ⟨e, he, rfl⟩, rfl⟩ := hc
      have he2 : e ∈ RepoChat.filterP (fun e => e.repository_id = repoId ∧
          1 - RepoChat.cosDistance e.embedding q > t) rows :=
        (RepoChat.sortJS_perm _ _).mem_iff.mp ((List.take_sublist k _).subset he)
      have hpred := (RepoChat.mem_filterP.mp he2).2
      simpa [RepoChat.jsOr_zero] using le_of_lt hpred.2
    · have h1 := RepoChat.sortJS_pairwise (fun e1 e2 : RepoChat.EmbeddingRow =>
        RepoChat.cosDistance e1.embedding q < RepoChat.cosDistance e2.embedding q)
        hA hNT (RepoChat.filterP (fun e => e.repository_id = repoId ∧
          1 - RepoChat.cosDistance e.embedding q > t) rows)
      have h2 := h1.sublist (List.take_sublist k _)
      simp only [RepoChat.mapServerResults, RepoChat.match_embeddings]
      rw [List.pairwise_map, List.pairwise_map]
      exact h2.imp (fun h => by
        simpa [RepoChat.jsOr_zero] using sub_le_sub_left (not_lt.mp h) 1)
  · intro out hout
    simp only [RepoChat.searchSimilarChunksFallback] at hout
    cases hloop : RepoChat.fallbackLoop q t
        ((RepoChat.filterP (fun e => e.repository_id = repoId) rows).take (k * 2)) with
    | error e =>
      rw [hloop] at hout
      exact absurd hout (by simp [Except.map])
    | ok results =>
      rw [hloop] at hout
      have hout2 : (RepoChat.sortJS (fun a b : RepoChat.SimilarChunk =>
          b.similarity < a.similarity) results).take k = out := by
        simpa [Except.map] using hout
      subst hout2
      refine ⟨?_, ?_, ?_⟩
      · simp only [List.length_take]
        exact min_le_left _ _
      · intro c hc
        have hc2 : c ∈ results :=
          (RepoChat.sortJS_perm _ _).mem_iff.mp ((List.take_sublist k _).subset hc)
        exact RepoChat.fallbackLoop_ok_mem hloop c hc2
      · exact RepoChat.fallback_result_sorted results k

/-- Witness for C4: the fallback run over an empty store succeeds with the
empty result list, which satisfies all three bounds. -/
theorem C4_search_contract_witness :
    RepoChat.searchSimilarChunksFallback [] "repo" [] 3 0 = .ok [] ∧
      ([] : List RepoChat.SimilarChunk).length ≤ 3 ∧
      (∀ c ∈ ([] : List RepoChat.SimilarChunk), (0 : ℝ) ≤ c.similarity) ∧
      ([] : List RepoChat.SimilarChunk).Pairwise
        (fun a b => b.similarity ≤ a.similarity) := by
  have hEq : RepoChat.searchSimilarChunksFallback [] "repo" [] 3 0 = .ok [] := rfl
  exact ⟨hEq, (C4_search_contract [] "repo" [] 3 0).2 [] hEq⟩

/-- C6: for equal-length vectors cosineSimilarity is total (it returns a
value, raising no division-by-zero error), and whenever at least one input
is the zero vector the returned value is exactly 0. -/
theorem C6_cosineSimilarity_zero_vector (a b : List ℝ)
    (h : a.length = b.length) :
    (∃ r : ℝ, RepoChat.cosineSimilarity a b = .ok r) ∧
      (((∀ x ∈ a, x = 0) ∨ (∀ x ∈ b, x = 0)) →
        RepoChat.cosineSimilarity a b = .ok 0) := by
  constructor
  · exact ⟨_, RepoChat.cosineSimilarity_eq_ok h⟩
  · intro hz
    have hdot : RepoChat.dotList a b = 0 := by
      rcases hz with hz | hz
      · exact RepoChat.dotList_eq_zero_left b hz
      · rw [RepoChat.dotList_comm]
        exact RepoChat.dotList_eq_zero_left a hz
    rw [RepoChat.cosineSimilarity_eq_ok h, hdot]
    simp

/-- Witness for C6 at the concrete input a = [0, 0], b = [3, 4]. -/
theorem C6_cosineSimilarity_zero_vector_witness :
    RepoChat.cosineSimilarity [(0 : ℝ), 0] [3, 4] = .ok 0 :=
  (C6_cosineSimilarity_zero_vector [(0 : ℝ), 0] [3, 4] (by simp)).2
    (Or.inl (by intro x hx; simpa using hx))

/-- C9: on vectors of unequal length cosineSimilarity throws (it returns
the same-length error and never a numeric similarity value). -/
theorem C9_cosineSimilarity_length_mismatch (a b : List ℝ)
    (h : a.length ≠ b.length) :
    RepoChat.cosineSimilarity a b = .error "Vectors must have the same length" := by
  unfold RepoChat.cosineSimilarity
  rw [if_pos h]

/-- Witness for C9 at the concrete input a = [1], b = []. -/
theorem C9_cosineSimilarity_length_mismatch_witness :
    RepoChat.cosineSimilarity [(1 : ℝ)] [] =
      .error "Vectors must have the same length" :=
  C9_cosineSimilarity_length_mismatch [(1 : ℝ)] [] (by simp)

/-- C1 counterexample: with one stored chunk whose similarity to the query
is exactly the threshold (embedding [0, 1], query [1, 0], threshold 0), the
client-side fallback keeps the chunk (it filters with similarity at or
above the threshold) while the server-side match_embeddings path drops it
(its WHERE clause demands similarity strictly above the threshold), so the
two paths do not return the same results over the same stored chunks. -/
theorem C1_fallback_differs_from_server_counterexample :
    RepoChat.searchSimilarChunksFallback
        [⟨"id1", "r1", "t1", 0, [0, 1]⟩] "r1" [1, 0] 1 0 ≠
      .ok (RepoChat.mapServerResults
        (RepoChat.match_embeddings
          [⟨"id1", "r1", "t1", 0, [0, 1]⟩] [1, 0] "r1" 0 1)) := by
  have hdot1 : RepoChat.dotList [(1 : ℝ), 0] [0, 1] = 0 := by
    simp [RepoChat.dotList]
  have hdot2 : RepoChat.dotList [(0 : ℝ), 1] [1, 0] = 0 := by
    simp [RepoChat.dotList]
  have hdist : RepoChat.cosDistance [(0 : ℝ), 1] [1, 0] = 1 := by
    unfold RepoChat.cosDistance
    rw [hdot2]
    simp
  have hserver : RepoChat.match_embeddings
      [⟨"id1", "r1", "t1", 0, [0, 1]⟩] [1, 0] "r1" 0 1 = [] := by
    simp only [RepoChat.match_embeddings, RepoChat.filterP]
    rw [if_neg (by rw [hdist]; norm_num)]
    simp [RepoChat.sortJS]
  have hcs : RepoChat.cosineSimilarity [(1 : ℝ), 0] [0, 1] = .ok 0 := by
    rw [RepoChat.cosineSimilarity_eq_ok (by simp)]
    rw [hdot1]
    simp
  have hdataCx : RepoChat.filterP (fun e => e.repository_id = "r1")
      [(⟨"id1", "r1", "t1", 0, [0, 1]⟩ : RepoChat.EmbeddingRow)] =
      [⟨"id1", "r1", "t1", 0, [0, 1]⟩] := by
    simp [RepoChat.filterP]
  have hloopCx : RepoChat.fallbackLoop [(1 : ℝ), 0] 0
      [(⟨"id1", "r1", "t1", 0, [0, 1]⟩ : RepoChat.EmbeddingRow)] =
      .ok [⟨"t1", 0, none, 0, none⟩] := by
    rw [RepoChat.fallbackLoop]
    simp only [hcs]
    rw [show RepoChat.fallbackLoop [(1 : ℝ), 0] 0 [] = .ok [] from rfl]
    simp [RepoChat.jsOrNat]
  have hfallback : RepoChat.searchSimilarChunksFallback
      [⟨"id1", "r1", "t1", 0, [0, 1]⟩] "r1" [1, 0] 1 0 =
      .ok [⟨"t1", 0, none, 0, none⟩] := by
    simp only [RepoChat.searchSimilarChunksFallback, hdataCx]
    rw [show List.take (1 * 2)
      [(⟨"id1", "r1", "t1", 0, [0, 1]⟩ : RepoChat.EmbeddingRow)] =
      [⟨"id1", "r1", "t1", 0, [0, 1]⟩] from rfl]
    rw [hloopCx]
    simp [RepoChat.sortJS, RepoChat.insertSorted, Except.map]
  rw [hfallback, hserver]
  simp [RepoChat.mapServerResults]

/-- C1 (amended): the fallback coincides with the server-side
match_embeddings ranking whenever the fallback's candidate fetch covers the
repository (at most limit * 2 stored chunks for the repository), no stored
chunk's similarity equals the threshold exactly (the two paths filter with
at-or-above versus strictly-above), all stored embeddings have the query's
length, and the repository's chunks have pairwise distinct similarities
(both sort orders are otherwise tie-dependent). -/
theorem C1_fallback_equals_server_amended (rows : List RepoChat.EmbeddingRow)
    (repoId : String) (q : List ℝ) (k : ℕ) (t : ℝ)
    (h0 : ∀ r ∈ RepoChat.filterP (fun e => e.repository_id = repoId) rows,
      r.embedding.length = q.length)
    (h1 : (RepoChat.filterP (fun e => e.repository_id = repoId) rows).length ≤ k * 2)
    (h2 : ∀ r ∈ RepoChat.filterP (fun e => e.repository_id = repoId) rows,
      RepoChat.simVal q r ≠ t)
    (h3 : ((RepoChat.filterP (fun e => e.repository_id = repoId) rows).map
      (fun r => RepoChat.simVal q r)).Pairwise (fun x y => x ≠ y)) :
    RepoChat.searchSimilarChunksFallback rows repoId q k t =
      .ok (RepoChat.mapServerResults
        (RepoChat.match_embeddings rows q repoId t k)) := by
  have hdata : (RepoChat.filterP (fun e => e.repository_id = repoId) rows).take (k * 2)
      = RepoChat.filterP (fun e => e.repository_id = repoId) rows :=
    List.take_of_length_le h1
  have hloop := @RepoChat.fallbackLoop_ok_of_lengths q t
    (RepoChat.filterP (fun e => e.repository_id = repoId) rows) h0
  have hfall : RepoChat.searchSimilarChunksFallback rows repoId q k t =
      .ok ((RepoChat.sortJS
        (fun a b : RepoChat.SimilarChunk => b.similarity < a.similarity)
        ((RepoChat.filterP (fun r => RepoChat.simVal q r ≥ t)
          (RepoChat.filterP (fun e => e.repository_id = repoId) rows)).map
            (RepoChat.chunkOfRow q))).take k) := by
    simp only [RepoChat.searchSimilarChunksFallback]
    rw [hdata, hloop]
    rfl
  have hfilter : RepoChat.filterP (fun e => e.repository_id = repoId ∧
      1 - RepoChat.cosDistance e.embedding q > t) rows =
      RepoChat.filterP (fun r => RepoChat.simVal q r ≥ t)
        (RepoChat.filterP (fun e => e.repository_id = repoId) rows) := by
    rw [RepoChat.filterP_and]
    refine RepoChat.filterP_congr ?_
    intro r hr
    rw [← RepoChat.simVal_eq]
    exact ⟨le_of_lt, fun hge => lt_of_le_of_ne hge (Ne.symm (h2 r hr))⟩
  have hserver : RepoChat.mapServerResults
      (RepoChat.match_embeddings rows q repoId t k) =
      ((RepoChat.sortJS (fun e1 e2 : RepoChat.EmbeddingRow =>
          RepoChat.cosDistance e1.embedding q < RepoChat.cosDistance e2.embedding q)
        (RepoChat.filterP (fun r => RepoChat.simVal q r ≥ t)
          (RepoChat.filterP (fun e => e.repository_id = repoId) rows))).map
        (RepoChat.chunkOfRow q)).take k := by
    simp only [RepoChat.mapServerResults, RepoChat.match_embeddings, hfilter]
    rw [List.map_map, ← List.map_take]
    congr 1
    funext e
    simp [Function.comp, RepoChat.jsOr_zero, RepoChat.chunkOfRow,
      RepoChat.one_sub_cosDistance, RepoChat.simVal]
  rw [hfall, hserver]
  congr 1
  congr 1
  have hbase : ((RepoChat.filterP (fun r => RepoChat.simVal q r ≥ t)
      (RepoChat.filterP (fun e => e.repository_id = repoId) rows)).map
        (RepoChat.chunkOfRow q)).Pairwise
      (fun a b => a.similarity ≠ b.similarity) := by
    have hsub : (RepoChat.filterP (fun r => RepoChat.simVal q r ≥ t)
        (RepoChat.filterP (fun e => e.repository_id = repoId) rows)).Sublist
        (RepoChat.filterP (fun e => e.repository_id = repoId) rows) :=
      RepoChat.filterP_sublist _ _
    have h3' := h3.sublist (hsub.map (fun r => RepoChat.simVal q r))
    rw [List.pairwise_map] at h3'
    rw [List.pairwise_map]
    exact h3'.imp (fun h => by simpa [RepoChat.chunkOfRow] using h)
  have hsymm : ∀ a b : RepoChat.SimilarChunk,
      a.similarity ≠ b.similarity → b.similarity ≠ a.similarity :=
    fun _ _ h => h.symm
  letI : IsAntisymm RepoChat.SimilarChunk
      (fun a b => b.similarity < a.similarity) :=
    ⟨fun a b hab hba => absurd (lt_trans hab hba) (lt_irrefl _)⟩
  refine @List.eq_of_perm_of_sorted RepoChat.SimilarChunk
    (fun a b => b.similarity < a.similarity) _ _ _ ?_ ?_ ?_
  · exact (RepoChat.sortJS_perm _ _).trans
      (((RepoChat.sortJS_perm _ _).map (RepoChat.chunkOfRow q)).symm)
  · show List.Pairwise
      (fun a b : RepoChat.SimilarChunk => b.similarity < a.similarity) _
    apply RepoChat.pairwise_desc_strict
    · exact (RepoChat.sortJS_pairwise _ RepoChat.befChunk_asymm
        RepoChat.befChunk_negTrans _).imp (fun h => not_lt.mp h)
    · exact ((RepoChat.sortJS_perm _ _).pairwise_iff
        (fun h => hsymm _ _ h)).mpr hbase
  · show List.Pairwise
      (fun a b : RepoChat.SimilarChunk => b.similarity < a.similarity) _
    apply RepoChat.pairwise_desc_strict
    · have h1' := RepoChat.sortJS_pairwise (fun e1 e2 : RepoChat.EmbeddingRow =>
        RepoChat.cosDistance e1.embedding q < RepoChat.cosDistance e2.embedding q)
        (RepoChat.befRow_asymm q) (RepoChat.befRow_negTrans q)
        (RepoChat.filterP (fun r => RepoChat.simVal q r ≥ t)
          (RepoChat.filterP (fun e => e.repository_id = repoId) rows))
      rw [List.pairwise_map]
      refine h1'.imp (fun h => ?_)
      show (RepoChat.chunkOfRow q _).similarity ≤ (RepoChat.chunkOfRow q _).similarity
      simp only [RepoChat.chunkOfRow, RepoChat.simVal_eq]
      exact sub_le_sub_left (not_lt.mp h) 1
    · exact (((RepoChat.sortJS_perm _ _).map (RepoChat.chunkOfRow q)).pairwise_iff
        (fun h => hsymm _ _ h)).mpr hbase

/-- Witness for the amended C1 at a one-chunk store: embedding [1, 0],
query [1, 0] (similarity 1), threshold one half, k = 1; both paths return
that single chunk. -/
theorem C1_fallback_equals_server_amended_witness :
    RepoChat.searchSimilarChunksFallback
        [⟨"id1", "r1", "hello", 0, [1, 0]⟩] "r1" [1, 0] 1 (1 / 2) =
      .ok (RepoChat.mapServerResults
        (RepoChat.match_embeddings
          [⟨"id1", "r1", "hello", 0, [1, 0]⟩] [1, 0] "r1" (1 / 2) 1)) := by
  have hsim : RepoChat.simVal [(1 : ℝ), 0] ⟨"id1", "r1", "hello", 0, [1, 0]⟩ = 1 := by
    unfold RepoChat.simVal RepoChat.l2mag
    norm_num [RepoChat.dotList, RepoChat.sumSq, Real.sqrt_one]
  have hflt : RepoChat.filterP (fun e => e.repository_id = "r1")
      [(⟨"id1", "r1", "hello", 0, [1, 0]⟩ : RepoChat.EmbeddingRow)] =
      [⟨"id1", "r1", "hello", 0, [1, 0]⟩] := by
    simp [RepoChat.filterP]
  refine C1_fallback_equals_server_amended _ _ _ _ _ ?_ ?_ ?_ ?_
  · intro r hr
    rw [hflt] at hr
    rw [List.mem_singleton] at hr
    subst hr
    rfl
  · rw [hflt]
    simp
  · intro r hr
    rw [hflt] at hr
    rw [List.mem_singleton] at hr
    subst hr
    rw [hsim]
    norm_num
  · rw [hflt]
    simp

/-- C5: for a nonempty batch against a provider with a token, the batch
embedding operation fails whenever the provider returns a vector whose
length differs from 384 at any position of the batch, and it succeeds with
exactly the provider's vectors precisely when every returned vector has
length 384. -/
theorem C5_embedDocuments_checks_every_vector (p : RepoChat.Provider)
    (tok : String) (texts : List String)
    (h1 : p.token = some tok) (h2 : texts ≠ []) :
    ((∃ v ∈ p.embed texts, v.length ≠ 384) →
      ∃ m, (RepoChat.embedDocuments p texts).1 = .error m) ∧
    ((RepoChat.embedDocuments p texts).1 = .ok (p.embed texts) ↔
      ∀ v ∈ p.embed texts, v.length = 384) := by
  have hne : ¬ texts.length = 0 := by
    simpa [List.length_eq_zero] using h2
  constructor
  · rintro ⟨v, hv, hlen⟩
    cases hval : RepoChat.validateDimensions (p.embed texts) 0 with
    | error m =>
      refine ⟨RepoChat.wrapDocumentsError m, ?_⟩
      unfold RepoChat.embedDocuments
      rw [if_neg hne, h1]
      simp only [hval]
    | ok u =>
      cases u
      exact absurd
        (((RepoChat.validateDimensions_ok_iff (p.embed texts) 0).mp hval) v hv)
        hlen
  · cases hval : RepoChat.validateDimensions (p.embed texts) 0 with
    | error m =>
      constructor
      · intro hok
        exfalso
        unfold RepoChat.embedDocuments at hok
        rw [if_neg hne, h1] at hok
        simp only [hval] at hok
        exact Except.noConfusion hok
      · intro hall
        exact absurd ((RepoChat.validateDimensions_ok_iff (p.embed texts) 0).mpr
          hall) (by simp [hval])
    | ok u =>
      cases u
      constructor
      · intro _
        exact (RepoChat.validateDimensions_ok_iff (p.embed texts) 0).mp hval
      · intro _
        unfold RepoChat.embedDocuments
        rw [if_neg hne, h1]
        simp only [hval]

/-- Witness for C5 at a one-text batch whose provider returns a single
vector of length exactly 384. -/
theorem C5_embedDocuments_checks_every_vector_witness :
    ((∃ v ∈ [List.replicate 384 (0 : ℝ)], v.length ≠ 384) →
      ∃ m, (RepoChat.embedDocuments
        ⟨some "tok", fun _ => [List.replicate 384 (0 : ℝ)]⟩ ["a"]).1 = .error m) ∧
    ((RepoChat.embedDocuments
        ⟨some "tok", fun _ => [List.replicate 384 (0 : ℝ)]⟩ ["a"]).1 =
        .ok [List.replicate 384 (0 : ℝ)] ↔
      ∀ v ∈ [List.replicate 384 (0 : ℝ)], v.length = 384) :=
  C5_embedDocuments_checks_every_vector
    ⟨some "tok", fun _ => [List.replicate 384 (0 : ℝ)]⟩ "tok" ["a"] rfl
    (by simp)

/-- C8: calling the batch embedding operation with an empty input list
returns the empty list and performs no provider interaction at all, not
even the client construction that would fail on a missing token. -/
theorem C8_embedDocuments_empty_batch (p : RepoChat.Provider) :
    RepoChat.embedDocuments p [] = (.ok [], []) := rfl

/-- C7 counterexample: a repository containing both a .ts and a .tsx file
makes extractLanguages return the name TypeScript twice, because the
deduplicating Set holds extensions, not mapped language names, and both
extensions map to the same name. -/
theorem C7_extractLanguages_duplicate_counterexample :
    RepoChat.extractLanguages [⟨"a.ts", ""⟩, ⟨"b.tsx", ""⟩] =
      ["TypeScript", "TypeScript"] ∧
    ¬ (RepoChat.extractLanguages [⟨"a.ts", ""⟩, ⟨"b.tsx", ""⟩]).Nodup :=
  ⟨by decide, by decide⟩

/-- C7 (amended): extractLanguages deduplicates at the extension level: the
collected extension list never repeats an extension, and the returned
language-name list has no duplicate name provided the input does not
contain two distinct extensions that map to the same name (the only such
pairs in the table being ts/tsx and js/jsx). -/
theorem C7_extractLanguages_dedup_amended (files : List RepoChat.GitHubFile)
    (hts : ¬ ("ts".toList ∈ RepoChat.collectExtensions files ∧
      "tsx".toList ∈ RepoChat.collectExtensions files))
    (hjs : ¬ ("js".toList ∈ RepoChat.collectExtensions files ∧
      "jsx".toList ∈ RepoChat.collectExtensions files)) :
    (RepoChat.collectExtensions files).Nodup ∧
      (RepoChat.extractLanguages files).Nodup := by
  refine ⟨RepoChat.collectExtensions_nodup files, ?_⟩
  apply RepoChat.nodup_filterMap_of_inj_on (RepoChat.collectExtensions_nodup files)
  intro a ha b hb n hfa hfb
  obtain ⟨p1, hp1, hp1a, hp1n⟩ := RepoChat.langMap_eq_some hfa
  obtain ⟨p2, hp2, hp2b, hp2n⟩ := RepoChat.langMap_eq_some hfb
  have hcol := RepoChat.langPairs_collisions p1 hp1 p2 hp2 (hp1n.trans hp2n.symm)
  rcases hcol with heq | ⟨h1, h2⟩ | ⟨h1, h2⟩ | ⟨h1, h2⟩ | ⟨h1, h2⟩
  · exact hp1a.symm.trans (heq.trans hp2b)
  · exact absurd ⟨(hp1a.symm.trans h1) ▸ ha, (hp2b.symm.trans h2) ▸ hb⟩ hts
  · exact absurd ⟨(hp2b.symm.trans h2) ▸ hb, (hp1a.symm.trans h1) ▸ ha⟩ hts
  · exact absurd ⟨(hp1a.symm.trans h1) ▸ ha, (hp2b.symm.trans h2) ▸ hb⟩ hjs
  · exact absurd ⟨(hp2b.symm.trans h2) ▸ hb, (hp1a.symm.trans h1) ▸ ha⟩ hjs

/-- Witness for the amended C7 on files a.ts and m.py, whose extensions map
to distinct names. -/
theorem C7_extractLanguages_dedup_amended_witness :
    (RepoChat.collectExtensions [⟨"a.ts", ""⟩, ⟨"m.py", ""⟩]).Nodup ∧
      (RepoChat.extractLanguages [⟨"a.ts", ""⟩, ⟨"m.py", ""⟩]).Nodup :=
  C7_extractLanguages_dedup_amended [⟨"a.ts", ""⟩, ⟨"m.py", ""⟩]
    (by decide) (by decide)

/-- C3 counterexample: on a 2000-character file the spec-modelled split
returns one 2000-character piece, but chunkWithMetadata prefixes each piece
with the File header, so its single chunk text has 2009 characters,
exceeding maxSize = CHUNK_SIZE = 2000; for the same reason concatenating
the produced chunk texts cannot reconstruct the original content. -/
theorem C3_chunkWithMetadata_counterexample :
    ((RepoChat.chunkWithMetadata (List.replicate 2000 'x') "a" "code" 5).map
      (fun c => c.text.length)) = [2009] ∧
    ¬ (2009 ≤ RepoChat.CHUNK_SIZE) := by
  constructor
  · have hne : ¬ (List.replicate 2000 'x').isEmpty = true := by
      rw [List.isEmpty_iff]
      intro hc
      have hlen := congrArg List.length hc
      rw [List.length_replicate, List.length_nil] at hlen
      exact absurd hlen (by omega)
    have hle : (List.replicate 2000 'x').length ≤ RepoChat.CHUNK_SIZE := by
      rw [List.length_replicate]
      exact le_refl 2000
    have h1 : RepoChat.split RepoChat.CHUNK_SIZE RepoChat.CHUNK_OVERLAP
        (List.replicate 2000 'x') = [List.replicate 2000 'x'] := by
      rw [RepoChat.split, if_neg hne, if_pos (Or.inl hle)]
    rw [RepoChat.chunkWithMetadata, h1, List.map_cons, List.map_nil]
    have hhead : (RepoChat.chunkHeader "a").length = 9 := by decide
    show [(RepoChat.chunkHeader "a" ++ List.replicate 2000 'x').length] = [2009]
    rw [List.length_append, hhead, List.length_replicate]
  · decide

/-- C3 (amended): for overlap < maxSize the spec-modelled split satisfies
the claimed contract on the raw pieces: every piece is at most maxSize
characters, each consecutive pair shares exactly the overlap (the last
overlap characters of a piece are the first overlap characters of the
next), and rejoining the pieces while removing the overlap reconstructs
the text.  chunkWithMetadata, however, prepends the File header to every
piece, so its chunk texts are bounded by maxSize plus the header length
rather than maxSize, and reconstruction holds only after stripping the
header from every chunk. -/
theorem C3_chunker_amended (text : List Char) (maxSize overlap : ℕ)
    (filePath fileType : String) (importance : ℕ) (h : overlap < maxSize) :
    (∀ c ∈ RepoChat.split maxSize overlap text, c.length ≤ maxSize) ∧
    (RepoChat.split maxSize overlap text).Chain'
      (fun c1 c2 => c1.drop (c1.length - overlap) = c2.take overlap) ∧
    RepoChat.joinChunks overlap (RepoChat.split maxSize overlap text) = text ∧
    (∀ c ∈ RepoChat.chunkWithMetadata text filePath fileType importance,
      c.text.length ≤ (RepoChat.chunkHeader filePath).length + RepoChat.CHUNK_SIZE) ∧
    RepoChat.joinChunks RepoChat.CHUNK_OVERLAP
      ((RepoChat.chunkWithMetadata text filePath fileType importance).map
        (fun c => c.text.drop (RepoChat.chunkHeader filePath).length)) = text := by
  have hck : RepoChat.CHUNK_OVERLAP < RepoChat.CHUNK_SIZE := by decide
  refine ⟨RepoChat.split_length_le maxSize overlap h text,
    RepoChat.split_chain maxSize overlap h text,
    RepoChat.joinChunks_split maxSize overlap h text, ?_, ?_⟩
  · intro c hc
    simp only [RepoChat.chunkWithMetadata, List.mem_map] at hc
    obtain ⟨doc, hdoc, rfl⟩ := hc
    simp only [List.length_append]
    have := RepoChat.split_length_le RepoChat.CHUNK_SIZE RepoChat.CHUNK_OVERLAP
      hck text doc hdoc
    omega
  · have hmap2 : ∀ l : List (List Char),
        (l.map (fun doc => (⟨RepoChat.chunkHeader filePath ++ doc, filePath,
          fileType, importance⟩ : RepoChat.ChunkMeta))).map
          (fun c => c.text.drop (RepoChat.chunkHeader filePath).length) = l := by
      intro l
      induction l with
      | nil => rfl
      | cons d ds ih => simp only [List.map_cons, ih, List.drop_left]
    have hmap : (RepoChat.chunkWithMetadata text filePath fileType importance).map
        (fun c => c.text.drop (RepoChat.chunkHeader filePath).length) =
        RepoChat.split RepoChat.CHUNK_SIZE RepoChat.CHUNK_OVERLAP text := by
      simp only [RepoChat.chunkWithMetadata]
      exact hmap2 _
    rw [hmap]
    exact RepoChat.joinChunks_split RepoChat.CHUNK_SIZE RepoChat.CHUNK_OVERLAP
      hck text

/-- Witness for the amended C3 at text abcde, maxSize 3, overlap 1. -/
theorem C3_chunker_amended_witness :
    (∀ c ∈ RepoChat.split 3 1 "abcde".toList, c.length ≤ 3) ∧
    (RepoChat.split 3 1 "abcde".toList).Chain'
      (fun c1 c2 => c1.drop (c1.length - 1) = c2.take 1) ∧
    RepoChat.joinChunks 1 (RepoChat.split 3 1 "abcde".toList) = "abcde".toList ∧
    (∀ c ∈ RepoChat.chunkWithMetadata "abcde".toList "f.ts" "code" 5,
      c.text.length ≤ (RepoChat.chunkHeader "f.ts").length + RepoChat.CHUNK_SIZE) ∧
    RepoChat.joinChunks RepoChat.CHUNK_OVERLAP
      ((RepoChat.chunkWithMetadata "abcde".toList "f.ts" "code" 5).map
        (fun c => c.text.drop (RepoChat.chunkHeader "f.ts").length)) =
      "abcde".toList :=
  C3_chunker_amended "abcde".toList 3 1 "f.ts" "code" 5 (by decide)

/-- C2: the ingestion run executes fetch, metadata derivation, chunking,
embedding and storing in order; the first step that throws stops the run
(the following steps do not appear in the executed trace) and the
repository status becomes error carrying that exception's message, while a
run in which no step throws executes all five steps and sets the status to
ready.  Metadata derivation and chunking are pure in the source and have no
failure outcome. -/
theorem C2_ingestion_failure_policy (env : RepoChat.PipelineEnv) :
    (∀ e, env.fetchRepo = .error e →
      RepoChat.embedRepository env = (.error e, [.fetch]) ∧
        RepoChat.repositoryStatusAfter env = .error e) ∧
    (∀ content e, env.fetchRepo = .ok content →
      (RepoChat.embedDocuments env.provider
        ((RepoChat.buildChunks content).map (fun c => String.mk c.text))).1 =
          .error e →
      RepoChat.embedRepository env =
        (.error e, [.fetch, .metadata, .chunking, .embedding]) ∧
        RepoChat.repositoryStatusAfter env = .error e) ∧
    (∀ content vectors e, env.fetchRepo = .ok content →
      (RepoChat.embedDocuments env.provider
        ((RepoChat.buildChunks content).map (fun c => String.mk c.text))).1 =
          .ok vectors →
      env.deleteOld = .error e →
      RepoChat.embedRepository env = (.error e, RepoChat.allSteps) ∧
        RepoChat.repositoryStatusAfter env = .error e) ∧
    (∀ content vectors e, env.fetchRepo = .ok content →
      (RepoChat.embedDocuments env.provider
        ((RepoChat.buildChunks content).map (fun c => String.mk c.text))).1 =
          .ok vectors →
      env.deleteOld = .ok () → env.storeNew = .error e →
      RepoChat.embedRepository env = (.error e, RepoChat.allSteps) ∧
        RepoChat.repositoryStatusAfter env = .error e) ∧
    (∀ content vectors, env.fetchRepo = .ok content →
      (RepoChat.embedDocuments env.provider
        ((RepoChat.buildChunks content).map (fun c => String.mk c.text))).1 =
          .ok vectors →
      env.deleteOld = .ok () → env.storeNew = .ok () →
      RepoChat.embedRepository env = (.ok (), RepoChat.allSteps) ∧
        RepoChat.repositoryStatusAfter env = .ready) := by
  refine ⟨?_, ?_, ?_, ?_, ?_⟩
  · intro e hf
    have h1 : RepoChat.embedRepository env = (.error e, [.fetch]) := by
      unfold RepoChat.embedRepository
      simp only [hf]
    exact ⟨h1, by unfold RepoChat.repositoryStatusAfter; simp only [h1]⟩
  · intro content e hf he
    have h1 : RepoChat.embedRepository env =
        (.error e, [.fetch, .metadata, .chunking, .embedding]) := by
      unfold RepoChat.embedRepository
      simp only [hf, he]
    exact ⟨h1, by unfold RepoChat.repositoryStatusAfter; simp only [h1]⟩
  · intro content vectors e hf he hd
    have h1 : RepoChat.embedRepository env = (.error e, RepoChat.allSteps) := by
      unfold RepoChat.embedRepository
      simp only [hf, he, hd]
    exact ⟨h1, by unfold RepoChat.repositoryStatusAfter; simp only [h1]⟩
  · intro content vectors e hf he hd hs
    have h1 : RepoChat.embedRepository env = (.error e, RepoChat.allSteps) := by
      unfold RepoChat.embedRepository
      simp only [hf, he, hd, hs]
    exact ⟨h1, by unfold RepoChat.repositoryStatusAfter; simp only [h1]⟩
  · intro content vectors hf he hd hs
    have h1 : RepoChat.embedRepository env = (.ok (), RepoChat.allSteps) := by
      unfold RepoChat.embedRepository
      simp only [hf, he, hd, hs]
    exact ⟨h1, by unfold RepoChat.repositoryStatusAfter; simp only [h1]⟩

/-- Witness for C2: a run with an empty repository and all collaborators
succeeding executes all five steps and reaches the ready status. -/
theorem C2_ingestion_failure_policy_witness :
    RepoChat.embedRepository
      ⟨.ok ⟨none, []⟩, ⟨some "tok", fun _ => []⟩, .ok (), .ok ()⟩ =
      (.ok (), RepoChat.allSteps) ∧
    RepoChat.repositoryStatusAfter
      ⟨.ok ⟨none, []⟩, ⟨some "tok", fun _ => []⟩, .ok (), .ok ()⟩ = .ready :=
  (C2_ingestion_failure_policy
      ⟨.ok ⟨none, []⟩, ⟨some "tok", fun _ => []⟩, .ok (), .ok ()⟩).2.2.2.2
    ⟨none, []⟩ [] rfl rfl rfl rfl
